import Mathlib

/-!
Verification of the checkpoint/recovery subsystem (checkpoint_manager.py)
and the bounded-concurrency task pool (batch_task_pool.py) of the
vision-quality-grader repository, via a shallow embedding in Lean 4.

Modelling conventions:
- Python sets of strings become Finset String.
- The checkpoint file on disk is a FileContent value: missing, corrupt
  (unparseable bytes), or a parsed CheckpointRecord.
- asyncio.Lock is a Bool field of the state.  It is not reentrant:
  a method that acquires the lock while the same task already holds it
  never completes.  A method call that never completes is modelled by
  returning none.
- save_checkpoint performs three file-system effects in order:
  write the temp file, remove the canonical file if it exists, rename
  the temp file onto the canonical path.  A crash part-way through is
  modelled by executing only a prefix of those steps.
-/

/-- One parsed checkpoint record, mirroring the JSON document written by
CheckpointManager.save_checkpoint: completed list, failed list,
total_files, start_time, last_update, version. -/
structure CheckpointRecord where
  completed : List String
  failed : List String
  total_files : Nat
  start_time : Nat
  last_update : Nat
  version : String
deriving DecidableEq

/-- Content of the canonical checkpoint path: absent, present but
unparseable, or a valid JSON record. -/
inductive FileContent where
  | missing
  | corrupt
  | valid (r : CheckpointRecord)
deriving DecidableEq

/-- The two paths save_checkpoint touches: the canonical checkpoint file
and the temporary file checkpoint_file plus a tmp suffix. -/
structure FS where
  canonical : FileContent
  temp : Option CheckpointRecord
deriving DecidableEq

/-- First file-system effect of save_checkpoint: write the serialized
record to the temporary path. -/
def write_temp (r : CheckpointRecord) (fs : FS) : FS :=
  { fs with temp := some r }

/-- Second effect: if os.path.exists(checkpoint_file), os.remove it
(the Windows-compatibility branch before the rename). -/
def remove_canonical (fs : FS) : FS :=
  match fs.canonical with
  | .missing => fs
  | _ => { fs with canonical := .missing }

/-- Third effect: os.rename(temp_file, checkpoint_file). -/
def rename_temp (fs : FS) : FS :=
  match fs.temp with
  | some r => ⟨.valid r, none⟩
  | none => fs

/-- The file-system effects of save_checkpoint, in program order. -/
def save_steps (r : CheckpointRecord) : List (FS → FS) :=
  [write_temp r, remove_canonical, rename_temp]

/-- File system after a crash that interrupts save_checkpoint having
completed exactly the first k of its file-system effects. -/
def save_crash (r : CheckpointRecord) (k : Nat) (fs : FS) : FS :=
  ((save_steps r).take k).foldl (fun a g => g a) fs

/-- File system after a save_checkpoint run that completes all effects. -/
def saveFS (r : CheckpointRecord) (fs : FS) : FS :=
  rename_temp (remove_canonical (write_temp r fs))

/-- In-memory state of a CheckpointManager instance together with the
file system it owns.  clock stands for the value time.time() would
return at the next call. -/
structure CMState where
  fs : FS
  auto_save_interval : Nat
  completed_files : Finset String
  failed_files : Finset String
  total_files : Nat
  last_save_count : Nat
  start_time : Nat
  clock : Nat
  lock : Bool
deriving DecidableEq

/-- CheckpointManager.save_checkpoint(completed, failed, total_files).
Acquires self.lock; acquiring the non-reentrant asyncio.Lock while it is
already held never completes, which is modelled as none.  Otherwise it
replaces the in-memory sets, serializes the full record and runs the
three file-system effects to completion. -/
def save_checkpoint (completed failed : Finset String) (total_files : Option Nat)
    (s : CMState) : Option CMState :=
  if s.lock then none
  else
    let tot := total_files.getD s.total_files
    let r : CheckpointRecord :=
      ⟨completed.sort (· ≤ ·), failed.sort (· ≤ ·), tot, s.start_time, s.clock, "1.0"⟩
    some { s with
      completed_files := completed
      failed_files := failed
      total_files := tot
      fs := saveFS r s.fs
      lock := false }

/-- CheckpointManager.load_checkpoint().  A missing file returns two
empty sets; a file that fails to parse is caught by the except branch
and likewise returns two empty sets; a valid record repopulates the
in-memory state and returns copies of the sets. -/
def load_checkpoint (s : CMState) : (Finset String × Finset String) × CMState :=
  match s.fs.canonical with
  | .missing => ((∅, ∅), s)
  | .corrupt => ((∅, ∅), s)
  | .valid r =>
    (((r.completed.toFinset, r.failed.toFinset)),
      { s with
        completed_files := r.completed.toFinset
        failed_files := r.failed.toFinset
        total_files := r.total_files
        start_time := r.start_time })

/-- The set mutation performed by CheckpointManager.update_progress under
the lock: first component is the completed set, second the failed set. -/
def apply_status (file_path status : String) (c f : Finset String) :
    Finset String × Finset String :=
  if status = "completed" then (insert file_path c, f.erase file_path)
  else if status = "failed" then (c.erase file_path, insert file_path f)
  else (c, f)

/-- CheckpointManager.update_progress(file_path, status, auto_save).
Acquires self.lock, applies the set mutation, and when auto_save is set
and the size of the two sets has grown by at least auto_save_interval
since last_save_count, awaits self.save_checkpoint while still holding
self.lock.  save_checkpoint then blocks forever acquiring the same
non-reentrant lock, so that branch yields none. -/
def update_progress (file_path status : String) (auto_save : Bool)
    (s : CMState) : Option CMState :=
  if s.lock then none
  else
    let p := apply_status file_path status s.completed_files s.failed_files
    let s2 : CMState := { s with completed_files := p.1, failed_files := p.2, lock := true }
    if auto_save then
      let current_count := s2.completed_files.card + s2.failed_files.card
      if (s2.auto_save_interval : ℤ) ≤ (current_count : ℤ) - (s2.last_save_count : ℤ) then
        match save_checkpoint s2.completed_files s2.failed_files none s2 with
        | none => none
        | some s3 => some { s3 with last_save_count := current_count, lock := false }
      else some { s2 with lock := false }
    else some { s2 with lock := false }

/-- CheckpointManager.should_skip_file(file_path, force_rerun). -/
def should_skip_file (file_path : String) (force_rerun : Bool) (s : CMState) : Bool :=
  if force_rerun then false
  else decide (file_path ∈ s.completed_files)

/-- Run a list of update_progress calls in order; a call that never
completes makes the whole run never complete. -/
def run_updates (calls : List (String × String × Bool)) (s : CMState) : Option CMState :=
  match calls with
  | [] => some s
  | c :: rest =>
    match update_progress c.1 c.2.1 c.2.2 s with
    | none => none
    | some s1 => run_updates rest s1

/-- A convenient fresh CheckpointManager state: empty sets, no file on
disk, lock free. -/
def initCM (interval : Nat) : CMState :=
  ⟨⟨.missing, none⟩, interval, ∅, ∅, 0, 0, 0, 0, false⟩

/-!
BatchTaskPool (batch_task_pool.py).  The pool is modelled as a labelled
transition system over PoolState.  A submit event fires at the instant
task_semaphore.acquire() succeeds (submit_task suspends until then), so
it is only enabled while a slot is free; it allocates the slot, assigns
the id task_counter, and registers the wrapped task in active_tasks.
A finish event fires when a wrapped task reaches its terminal branch in
execute_with_timeout: the matching counters are incremented and the
finally block runs cleanup_task, which removes the task from
active_tasks and releases the semaphore slot exactly once.
-/

/-- State of a BatchTaskPool: capacity, free slots of the semaphore,
the in-flight registry, and the four counters. -/
structure PoolState where
  max_concurrent : Nat
  sem_value : Nat
  active_tasks : Finset Nat
  task_counter : Nat
  completed_count : Nat
  failed_count : Nat
  timeout_count : Nat
deriving DecidableEq

/-- A freshly constructed pool of the given capacity. -/
def initPool (c : Nat) : PoolState :=
  ⟨c, c, ∅, 0, 0, 0, 0⟩

/-- Terminal outcome of one wrapped task, as distinguished by the
branches of execute_with_timeout: normal return, asyncio.TimeoutError,
any other exception, or cancellation (which except Exception does not
catch, so no counter moves). -/
inductive Outcome where
  | success
  | error
  | timeout
  | cancelled
deriving DecidableEq

/-- Counter updates performed by the branch of execute_with_timeout that
handles the given outcome. -/
def applyOutcome (s : PoolState) (o : Outcome) : PoolState :=
  match o with
  | .success => { s with completed_count := s.completed_count + 1 }
  | .error => { s with failed_count := s.failed_count + 1 }
  | .timeout =>
    { s with timeout_count := s.timeout_count + 1, failed_count := s.failed_count + 1 }
  | .cancelled => s

/-- Events of the pool transition system. -/
inductive PoolEvent where
  | submit
  | finish (tid : Nat) (o : Outcome)
deriving DecidableEq

/-- One transition.  none means the event is not enabled in this state:
a submit while no slot is free (the caller is still suspended in
acquire), or a finish of a task that is not in flight. -/
def poolStep (s : PoolState) (e : PoolEvent) : Option PoolState :=
  match e with
  | .submit =>
    if s.sem_value = 0 then none
    else some { s with
      sem_value := s.sem_value - 1
      active_tasks := insert s.task_counter s.active_tasks
      task_counter := s.task_counter + 1 }
  | .finish tid o =>
    if tid ∈ s.active_tasks then
      let s1 := applyOutcome s o
      some { s1 with
        active_tasks := s1.active_tasks.erase tid
        sem_value := s1.sem_value + 1 }
    else none

/-- Run a sequence of pool events from a state. -/
def runPool (s : PoolState) : List PoolEvent → Option PoolState
  | [] => some s
  | e :: evs =>
    match poolStep s e with
    | none => none
    | some s1 => runPool s1 evs

/-- The task ids of the finish events of a trace, in order. -/
def finishTids : List PoolEvent → List Nat
  | [] => []
  | .submit :: evs => finishTids evs
  | .finish tid _ :: evs => tid :: finishTids evs

/-- Number of submit events in a trace. -/
def countSubmits : List PoolEvent → Nat
  | [] => 0
  | .submit :: evs => countSubmits evs + 1
  | .finish _ _ :: evs => countSubmits evs

/-- Number of finish events in a trace. -/
def countFinishes : List PoolEvent → Nat
  | [] => 0
  | .submit :: evs => countFinishes evs
  | .finish _ _ :: evs => countFinishes evs + 1

/-- The stats snapshot built by BatchTaskPool.get_stats; success_rate is
completed divided by max(total submitted, 1), times 100, computed in ℚ. -/
structure PoolStats where
  max_concurrent : Nat
  active_tasks : Nat
  available_slots : Nat
  total_submitted : Nat
  completed : Nat
  failed : Nat
  timeout : Nat
  success_rate : ℚ
deriving DecidableEq

/-- BatchTaskPool.get_stats().  Returned together with the (unchanged)
pool state, making it explicit that the call reads but never writes. -/
def get_stats (s : PoolState) : PoolStats × PoolState :=
  (⟨s.max_concurrent, s.active_tasks.card, s.sem_value, s.task_counter,
    s.completed_count, s.failed_count, s.timeout_count,
    (s.completed_count : ℚ) / ((max s.task_counter 1 : Nat) : ℚ) * 100⟩, s)

/-- Behaviour of one wrapped computation as observed by
execute_with_timeout: it returns a value before the deadline, raises an
exception whose text is msg, or is still running when the timeout
elapses. -/
inductive WorkBehavior (α : Type) where
  | completes (v : α)
  | raises (msg : String)
  | timesOut

/-- Result dictionary a task handle resolves to: the value returned by
the computation, or one of the two error records built by
execute_with_timeout (status, path, error text, task id; the task_error
record also carries a traceback). -/
inductive TaskResult (α : Type) where
  | success (v : α)
  | taskError (path error tb task_id : String)
  | timeoutError (path error task_id : String)

/-- The error text of the timeout record, mirroring the formatted string
built from task_timeout. -/
def timeoutMsg (task_timeout : Nat) : String :=
  "task timed out after " ++ toString task_timeout ++ " seconds"

/-- The status field of a result dictionary. -/
def statusOf {α : Type} : TaskResult α → String
  | .success _ => "success"
  | .taskError _ _ _ _ => "task_error"
  | .timeoutError _ _ _ => "timeout_error"

/-- BatchTaskPool.execute_with_timeout, as the total map from the
behaviour of the wrapped computation to the result its handle resolves
to.  The try/except structure catches TimeoutError and Exception, so
every behaviour lands in exactly one branch and no fault escapes. -/
def execute_with_timeout {α : Type} (task_timeout : Nat) (b : WorkBehavior α)
    (task_id path tb : String) : TaskResult α :=
  match b with
  | .completes v => .success v
  | .raises msg => .taskError path msg tb task_id
  | .timesOut => .timeoutError path (timeoutMsg task_timeout) task_id

/-- The structural pool invariant: free slots and in-flight tasks
partition the capacity, and every in-flight id was assigned by an
earlier submission. -/
def PoolInv (c : Nat) (s : PoolState) : Prop :=
  s.sem_value + s.active_tasks.card = c ∧
  ∀ t ∈ s.active_tasks, t < s.task_counter

/-! Helper lemmas. -/

theorem save_checkpoint_of_locked (c f : Finset String) (t : Option Nat)
    (s : CMState) (h : s.lock = true) : save_checkpoint c f t s = none := by
  simp [save_checkpoint, h]

theorem saveFS_canonical (r : CheckpointRecord) (fs : FS) :
    saveFS r fs = ⟨.valid r, none⟩ := by
  unfold saveFS write_temp remove_canonical rename_temp
  cases fs.canonical <;> rfl

theorem update_progress_some_eq (fp st : String) (a : Bool) (s s' : CMState)
    (h : update_progress fp st a s = some s') :
    s' = { s with
      completed_files := (apply_status fp st s.completed_files s.failed_files).1
      failed_files := (apply_status fp st s.completed_files s.failed_files).2
      lock := false } := by
  unfold update_progress at h
  split at h
  · exact absurd h (by simp)
  · split at h
    · dsimp only at h
      split at h
      · simp [save_checkpoint] at h
      · exact (Option.some.inj h).symm
    · exact (Option.some.inj h).symm

theorem apply_status_disjoint (fp st : String) (c f : Finset String)
    (h : Disjoint c f) :
    Disjoint (apply_status fp st c f).1 (apply_status fp st c f).2 := by
  unfold apply_status
  split_ifs
  · rw [Finset.disjoint_left]
    intro x hx hx2
    rcases Finset.mem_insert.mp hx with rfl | hxc
    · exact (Finset.not_mem_erase x f) hx2
    · exact (Finset.disjoint_left.mp h hxc) (Finset.mem_of_mem_erase hx2)
  · rw [Finset.disjoint_left]
    intro x hx hx2
    rcases Finset.mem_insert.mp hx2 with rfl | hxf
    · exact (Finset.not_mem_erase x c) hx
    · exact (Finset.disjoint_left.mp h (Finset.mem_of_mem_erase hx)) hxf
  · exact h

theorem run_updates_disjoint (calls : List (String × String × Bool)) :
    ∀ (s s' : CMState), run_updates calls s = some s' →
      Disjoint s.completed_files s.failed_files →
      Disjoint s'.completed_files s'.failed_files := by
  induction calls with
  | nil =>
    intro s s' h hd
    simp only [run_updates, Option.some.injEq] at h
    exact h ▸ hd
  | cons c rest ih =>
    intro s s' h hd
    simp only [run_updates] at h
    split at h
    · exact absurd h (by simp)
    · next s1 h1 =>
      have := update_progress_some_eq c.1 c.2.1 c.2.2 s s1 h1
      subst this
      exact ih _ _ h (apply_status_disjoint _ _ _ _ hd)

/-- C1: the claim says a failure at any point between the temp-file write
and the replacement of the canonical file leaves the previously persisted
canonical checkpoint intact.  The code, however, removes the canonical
file before the rename, so a crash after exactly two of the three
file-system effects (temp written, canonical removed, rename not yet
executed) leaves the canonical checkpoint path with no file at all, even
though it held a valid record before the save started. -/
theorem c1_crash_between_remove_and_rename_leaves_checkpoint_absent :
    (save_crash ⟨["a", "b"], [], 2, 0, 5, "1.0"⟩ 2
        ⟨FileContent.valid ⟨["a"], [], 1, 0, 0, "1.0"⟩, none⟩).canonical =
      FileContent.missing ∧
    (⟨FileContent.valid ⟨["a"], [], 1, 0, 0, "1.0"⟩, none⟩ : FS).canonical ≠
      FileContent.missing := by
  constructor
  · rfl
  · decide

/-- C2: the claim says that when the auto-save threshold is reached,
update_progress performs the save and returns.  In the code,
update_progress still holds self.lock when it awaits self.save_checkpoint,
and save_checkpoint starts by acquiring the same non-reentrant
asyncio.Lock, so the call deadlocks (modelled as none) exactly when the
threshold is reached; with auto_save disabled the same update completes
normally. -/
theorem c2_auto_save_threshold_deadlocks :
    update_progress "a" "completed" true (initCM 1) = none ∧
    update_progress "a" "completed" false (initCM 1) ≠ none := by
  constructor
  · rfl
  · decide

/-- C4: every behaviour of the wrapped computation is mapped by
execute_with_timeout to exactly one terminal result: a normal return to
success, a raised exception to a task_error record carrying the error,
a timeout to a timeout_error record; and the status of the result is
always one of success, task_error, timeout_error, so no fault escapes
the pool. -/
theorem c4_exactly_one_terminal_outcome (α : Type) (v : α)
    (msg task_id path tb : String) (t : Nat) :
    execute_with_timeout t (WorkBehavior.completes v) task_id path tb =
      TaskResult.success v ∧
    execute_with_timeout t (@WorkBehavior.raises α msg) task_id path tb =
      TaskResult.taskError path msg tb task_id ∧
    execute_with_timeout t (@WorkBehavior.timesOut α) task_id path tb =
      TaskResult.timeoutError path (timeoutMsg t) task_id ∧
    ∀ b : WorkBehavior α,
      statusOf (execute_with_timeout t b task_id path tb) ∈
        (["success", "task_error", "timeout_error"] : List String) := by
  refine ⟨rfl, rfl, rfl, fun b => ?_⟩
  cases b <;> simp [execute_with_timeout, statusOf]

/-- C6: saving any pair of sets and then loading returns exactly those
sets: save_checkpoint serializes both sets into the record placed at the
canonical path, and load_checkpoint turns those lists back into the same
sets. -/
theorem c6_save_then_load_roundtrip (c f : Finset String) (tot : Option Nat)
    (s : CMState) (h : s.lock = false) :
    ∃ s1, save_checkpoint c f tot s = some s1 ∧
      (load_checkpoint s1).1 = (c, f) := by
  refine ⟨{ s with
    completed_files := c
    failed_files := f
    total_files := tot.getD s.total_files
    fs := ⟨FileContent.valid
      ⟨c.sort (· ≤ ·), f.sort (· ≤ ·), tot.getD s.total_files,
        s.start_time, s.clock, "1.0"⟩, none⟩
    lock := false }, ?_, ?_⟩
  · unfold save_checkpoint
    rw [h]
    simp only [Bool.false_eq_true, if_false, Option.some.injEq]
    rw [saveFS_canonical]
  · simp [load_checkpoint, Finset.sort_toFinset]

/-- C6 witness: a concrete save of completed x and failed y followed by a
load returns exactly those two sets. -/
theorem c6_save_then_load_roundtrip_witness :
    ∃ s1, save_checkpoint {"x"} {"y"} none (initCM 100) = some s1 ∧
      (load_checkpoint s1).1 = ({"x"}, {"y"}) :=
  c6_save_then_load_roundtrip {"x"} {"y"} none (initCM 100) rfl

/-- C7: load_checkpoint never fails its caller: when the canonical file
is missing, and equally when it is present but unparseable (the except
branch), the call returns two empty sets. -/
theorem c7_load_checkpoint_missing_or_corrupt_returns_empty (s : CMState)
    (h : s.fs.canonical = FileContent.missing ∨
      s.fs.canonical = FileContent.corrupt) :
    (load_checkpoint s).1 = (∅, ∅) := by
  rcases h with h | h <;> simp [load_checkpoint, h]

/-- C7 witness: loading from a fresh manager with no checkpoint file
returns two empty sets. -/
theorem c7_load_checkpoint_missing_or_corrupt_returns_empty_witness :
    (load_checkpoint (initCM 100)).1 = (∅, ∅) :=
  c7_load_checkpoint_missing_or_corrupt_returns_empty (initCM 100) (Or.inl rfl)

/-- C8: for every pool state, the success_rate field of the get_stats
snapshot equals completed divided by max(submitted, 1) times 100, and
the call returns the pool state unchanged. -/
theorem c8_get_stats_success_rate_and_readonly (s : PoolState) :
    (get_stats s).1.success_rate =
      (s.completed_count : ℚ) / ((max s.task_counter 1 : Nat) : ℚ) * 100 ∧
    (get_stats s).2 = s :=
  ⟨rfl, rfl⟩

/-- C9: should_skip_file returns true exactly when force_rerun is false
and the identifier is in the completed set; under the mutual-exclusivity
invariant an identifier in the failed set is therefore never skipped. -/
theorem c9_should_skip_iff (s : CMState) (fp : String) (force : Bool) :
    (should_skip_file fp force s = true ↔
      (force = false ∧ fp ∈ s.completed_files)) ∧
    (Disjoint s.completed_files s.failed_files → fp ∈ s.failed_files →
      should_skip_file fp force s = false) := by
  constructor
  · cases force <;> simp [should_skip_file]
  · intro hd hf
    cases force with
    | true => simp [should_skip_file]
    | false =>
      simp only [should_skip_file, Bool.false_eq_true, if_false,
        decide_eq_false_iff_not]
      exact fun hc => (Finset.disjoint_left.mp hd hc) hf

/-- C9 witness: with completed a and failed b, the identifier a is
skipped and the identifier b is not. -/
theorem c9_should_skip_iff_witness :
    should_skip_file "a" false
        ⟨⟨FileContent.missing, none⟩, 100, {"a"}, {"b"}, 0, 0, 0, 0, false⟩ = true ∧
    should_skip_file "b" false
        ⟨⟨FileContent.missing, none⟩, 100, {"a"}, {"b"}, 0, 0, 0, 0, false⟩ = false :=
  ⟨(c9_should_skip_iff ⟨⟨FileContent.missing, none⟩, 100, {"a"}, {"b"}, 0, 0, 0, 0, false⟩
      "a" false).1.mpr ⟨rfl, by decide⟩,
    (c9_should_skip_iff ⟨⟨FileContent.missing, none⟩, 100, {"a"}, {"b"}, 0, 0, 0, 0, false⟩
      "b" false).2 (by decide) (by decide)⟩

theorem apply_status_completed (fp : String) (c f : Finset String) :
    apply_status fp "completed" c f = (insert fp c, f.erase fp) := rfl

theorem apply_status_failed (fp : String) (c f : Finset String) :
    apply_status fp "failed" c f = (c.erase fp, insert fp f) := rfl

/-- C5: along any sequence of update_progress calls the completed and
failed sets stay disjoint, so an identifier is in at most one of them;
and after recording completed then failed for the same identifier it is
in failed and not in completed, and symmetrically for the reverse
order. -/
theorem c5_mutual_exclusivity :
    (∀ (calls : List (String × String × Bool)) (s s' : CMState),
      run_updates calls s = some s' →
      Disjoint s.completed_files s.failed_files →
      Disjoint s'.completed_files s'.failed_files) ∧
    (∀ (fp : String) (a1 a2 : Bool) (s s1 s2 : CMState),
      update_progress fp "completed" a1 s = some s1 →
      update_progress fp "failed" a2 s1 = some s2 →
      fp ∈ s2.failed_files ∧ fp ∉ s2.completed_files) ∧
    (∀ (fp : String) (a1 a2 : Bool) (s s1 s2 : CMState),
      update_progress fp "failed" a1 s = some s1 →
      update_progress fp "completed" a2 s1 = some s2 →
      fp ∈ s2.completed_files ∧ fp ∉ s2.failed_files) := by
  refine ⟨fun calls s s' h hd => run_updates_disjoint calls s s' h hd, ?_, ?_⟩
  · intro fp a1 a2 s s1 s2 _ h2
    have e := update_progress_some_eq fp "failed" a2 s1 s2 h2
    subst e
    rw [apply_status_failed]
    exact ⟨Finset.mem_insert_self fp _, Finset.not_mem_erase fp _⟩
  · intro fp a1 a2 s s1 s2 _ h2
    have e := update_progress_some_eq fp "completed" a2 s1 s2 h2
    subst e
    rw [apply_status_completed]
    exact ⟨Finset.mem_insert_self fp _, Finset.not_mem_erase fp _⟩

/-- C5 witness: recording a as completed and then as failed on a fresh
manager leaves a in the failed set and out of the completed set. -/
theorem c5_mutual_exclusivity_witness :
    ("a" : String) ∈
      (⟨⟨FileContent.missing, none⟩, 100, ∅, {"a"}, 0, 0, 0, 0, false⟩ : CMState).failed_files ∧
    ("a" : String) ∉
      (⟨⟨FileContent.missing, none⟩, 100, ∅, {"a"}, 0, 0, 0, 0, false⟩ : CMState).completed_files :=
  c5_mutual_exclusivity.2.1 "a" false false (initCM 100)
    ⟨⟨FileContent.missing, none⟩, 100, {"a"}, ∅, 0, 0, 0, 0, false⟩
    ⟨⟨FileContent.missing, none⟩, 100, ∅, {"a"}, 0, 0, 0, 0, false⟩
    (by decide) (by decide)


theorem applyOutcome_active (s : PoolState) (o : Outcome) :
    (applyOutcome s o).active_tasks = s.active_tasks := by
  cases o <;> rfl

theorem applyOutcome_counter (s : PoolState) (o : Outcome) :
    (applyOutcome s o).task_counter = s.task_counter := by
  cases o <;> rfl

theorem applyOutcome_sem (s : PoolState) (o : Outcome) :
    (applyOutcome s o).sem_value = s.sem_value := by
  cases o <;> rfl

theorem poolStep_fresh {s s' : PoolState} {e : PoolEvent}
    (h : poolStep s e = some s')
    (hf : ∀ t ∈ s.active_tasks, t < s.task_counter) :
    ∀ t ∈ s'.active_tasks, t < s'.task_counter := by
  cases e with
  | submit =>
    simp only [poolStep] at h
    by_cases hz : s.sem_value = 0
    · rw [if_pos hz] at h
      exact absurd h (by simp)
    · rw [if_neg hz] at h
      rw [← Option.some.inj h]
      intro t ht
      rcases Finset.mem_insert.mp ht with rfl | hta
      · exact Nat.lt_succ_self _
      · exact Nat.lt_succ_of_lt (hf t hta)
  | finish tid o =>
    simp only [poolStep] at h
    by_cases hm : tid ∈ s.active_tasks
    · rw [if_pos hm] at h
      rw [← Option.some.inj h]
      intro t ht
      simp only [applyOutcome_active] at ht
      simp only [applyOutcome_counter]
      exact hf t (Finset.mem_of_mem_erase ht)
    · rw [if_neg hm] at h
      exact absurd h (by simp)

theorem poolStep_inv {c : Nat} {s s' : PoolState} {e : PoolEvent}
    (h : poolStep s e = some s') (hi : PoolInv c s) : PoolInv c s' := by
  obtain ⟨hcard, hf⟩ := hi
  refine ⟨?_, poolStep_fresh h hf⟩
  cases e with
  | submit =>
    simp only [poolStep] at h
    by_cases hz : s.sem_value = 0
    · rw [if_pos hz] at h
      exact absurd h (by simp)
    · rw [if_neg hz] at h
      rw [← Option.some.inj h]
      have hfree : s.task_counter ∉ s.active_tasks := fun hmem =>
        Nat.lt_irrefl _ (hf _ hmem)
      simp only [Finset.card_insert_of_not_mem hfree]
      omega
  | finish tid o =>
    simp only [poolStep] at h
    by_cases hm : tid ∈ s.active_tasks
    · rw [if_pos hm] at h
      rw [← Option.some.inj h]
      simp only [applyOutcome_sem, applyOutcome_active]
      have hc : (s.active_tasks.erase tid).card + 1 = s.active_tasks.card :=
        Finset.card_erase_add_one hm
      omega
    · rw [if_neg hm] at h
      exact absurd h (by simp)

theorem runPool_inv {c : Nat} (evs : List PoolEvent) :
    ∀ s s' : PoolState, runPool s evs = some s' → PoolInv c s → PoolInv c s' := by
  induction evs with
  | nil =>
    intro s s' h hi
    rw [← Option.some.inj (by simpa [runPool] using h : some s = some s')]
    exact hi
  | cons e evs ih =>
    intro s s' h hi
    simp only [runPool] at h
    split at h
    · exact absurd h (by simp)
    · next s1 h1 => exact ih s1 s' h (poolStep_inv h1 hi)

theorem runPool_card (evs : List PoolEvent) :
    ∀ s s' : PoolState, runPool s evs = some s' →
      (∀ t ∈ s.active_tasks, t < s.task_counter) →
      s'.active_tasks.card + countFinishes evs =
        s.active_tasks.card + countSubmits evs := by
  induction evs with
  | nil =>
    intro s s' h _
    rw [← Option.some.inj (by simpa [runPool] using h : some s = some s')]
    rfl
  | cons e evs ih =>
    intro s s' h hf
    simp only [runPool] at h
    split at h
    · exact absurd h (by simp)
    · next s1 h1 =>
      have hrec := ih s1 s' h (poolStep_fresh h1 hf)
      cases e with
      | submit =>
        simp only [poolStep] at h1
        by_cases hz : s.sem_value = 0
        · rw [if_pos hz] at h1
          exact absurd h1 (by simp)
        · rw [if_neg hz] at h1
          rw [← Option.some.inj h1] at hrec
          have hfree : s.task_counter ∉ s.active_tasks := fun hmem =>
            Nat.lt_irrefl _ (hf _ hmem)
          simp only [Finset.card_insert_of_not_mem hfree] at hrec
          simp only [countSubmits, countFinishes]
          omega
      | finish tid o =>
        simp only [poolStep] at h1
        by_cases hm : tid ∈ s.active_tasks
        · rw [if_pos hm] at h1
          rw [← Option.some.inj h1] at hrec
          simp only [applyOutcome_active] at hrec
          have hc : (s.active_tasks.erase tid).card + 1 = s.active_tasks.card :=
            Finset.card_erase_add_one hm
          simp only [countSubmits, countFinishes]
          omega
        · rw [if_neg hm] at h1
          exact absurd h1 (by simp)

theorem runPool_no_refinish (evs : List PoolEvent) :
    ∀ (s s' : PoolState) (tid : Nat), runPool s evs = some s' →
      tid < s.task_counter → tid ∉ s.active_tasks → tid ∉ finishTids evs := by
  induction evs with
  | nil => intro s s' tid _ _ _; simp [finishTids]
  | cons e evs ih =>
    intro s s' tid h hlt hout
    simp only [runPool] at h
    split at h
    · exact absurd h (by simp)
    · next s1 h1 =>
      cases e with
      | submit =>
        simp only [poolStep] at h1
        by_cases hz : s.sem_value = 0
        · rw [if_pos hz] at h1
          exact absurd h1 (by simp)
        · rw [if_neg hz] at h1
          rw [← Option.some.inj h1] at h
          simp only [finishTids]
          refine ih _ s' tid h (Nat.lt_succ_of_lt hlt) ?_
          simp only [Finset.mem_insert]
          rintro (rfl | hmem)
          · exact Nat.lt_irrefl _ hlt
          · exact hout hmem
      | finish tid2 o =>
        simp only [poolStep] at h1
        by_cases hm : tid2 ∈ s.active_tasks
        · rw [if_pos hm] at h1
          rw [← Option.some.inj h1] at h
          simp only [finishTids, List.mem_cons]
          rintro (rfl | hrest)
          · exact hout hm
          · refine absurd hrest (ih _ s' tid h ?_ ?_)
            · simp only [applyOutcome_counter]
              exact hlt
            · simp only [applyOutcome_active]
              intro hmem2
              exact hout (Finset.mem_of_mem_erase hmem2)
        · rw [if_neg hm] at h1
          exact absurd h1 (by simp)

theorem runPool_nodup (evs : List PoolEvent) :
    ∀ s s' : PoolState, runPool s evs = some s' →
      (∀ t ∈ s.active_tasks, t < s.task_counter) →
      (finishTids evs).Nodup := by
  induction evs with
  | nil => intro s s' _ _; simp [finishTids]
  | cons e evs ih =>
    intro s s' h hf
    simp only [runPool] at h
    split at h
    · exact absurd h (by simp)
    · next s1 h1 =>
      cases e with
      | submit =>
        simp only [finishTids]
        exact ih s1 s' h (poolStep_fresh h1 hf)
      | finish tid o =>
        simp only [finishTids, List.nodup_cons]
        refine ⟨?_, ih s1 s' h (poolStep_fresh h1 hf)⟩
        simp only [poolStep] at h1
        by_cases hm : tid ∈ s.active_tasks
        · rw [if_pos hm] at h1
          rw [← Option.some.inj h1] at h
          refine runPool_no_refinish evs _ s' tid h ?_ ?_
          · simp only [applyOutcome_counter]
            exact hf tid hm
          · simp only [applyOutcome_active]
            exact Finset.not_mem_erase tid _
        · rw [if_neg hm] at h1
          exact absurd h1 (by simp)

theorem poolStep_timeout_le {s s' : PoolState} {e : PoolEvent}
    (h : poolStep s e = some s')
    (hle : s.timeout_count ≤ s.failed_count) :
    s'.timeout_count ≤ s'.failed_count := by
  cases e with
  | submit =>
    simp only [poolStep] at h
    by_cases hz : s.sem_value = 0
    · rw [if_pos hz] at h
      exact absurd h (by simp)
    · rw [if_neg hz] at h
      rw [← Option.some.inj h]
      exact hle
  | finish tid o =>
    simp only [poolStep] at h
    by_cases hm : tid ∈ s.active_tasks
    · rw [if_pos hm] at h
      rw [← Option.some.inj h]
      cases o <;> simp only [applyOutcome] <;> omega
    · rw [if_neg hm] at h
      exact absurd h (by simp)

theorem runPool_timeout_le (evs : List PoolEvent) :
    ∀ s s' : PoolState, runPool s evs = some s' →
      s.timeout_count ≤ s.failed_count →
      s'.timeout_count ≤ s'.failed_count := by
  induction evs with
  | nil =>
    intro s s' h hle
    rw [← Option.some.inj (by simpa [runPool] using h : some s = some s')]
    exact hle
  | cons e evs ih =>
    intro s s' h hle
    simp only [runPool] at h
    split at h
    · exact absurd h (by simp)
    · next s1 h1 => exact ih s1 s' h (poolStep_timeout_le h1 hle)

/-- C3: slot conservation.  Along any valid trace from a fresh pool of
capacity c, the in-flight registry never holds more than c tasks, free
slots and in-flight tasks always partition the capacity, no task id is
ever finished twice (each slot acquired at submission is released
exactly once, at the terminal state), the in-flight count always equals
submissions minus terminations, and once every submitted task has
reached a terminal state the in-flight count is zero. -/
theorem c3_slot_conservation (c : Nat) (evs : List PoolEvent) (s : PoolState)
    (h : runPool (initPool c) evs = some s) :
    s.active_tasks.card ≤ c ∧
    s.sem_value + s.active_tasks.card = c ∧
    (finishTids evs).Nodup ∧
    s.active_tasks.card + countFinishes evs = countSubmits evs ∧
    (countFinishes evs = countSubmits evs → s.active_tasks.card = 0) := by
  have hinit : PoolInv c (initPool c) := by
    constructor
    · simp [initPool]
    · intro t ht
      simp [initPool] at ht
  obtain ⟨hpart, hfresh⟩ := runPool_inv evs (initPool c) s h hinit
  have hcard := runPool_card evs (initPool c) s h hinit.2
  have hnodup := runPool_nodup evs (initPool c) s h hinit.2
  have hzero : (initPool c).active_tasks.card = 0 := by simp [initPool]
  rw [hzero] at hcard
  exact ⟨by omega, hpart, hnodup, by omega, by omega⟩

/-- C3 witness: capacity 2, two submissions, a third submission after a
slot frees, and three terminal outcomes leave zero tasks in flight. -/
theorem c3_slot_conservation_witness :
    (⟨2, 2, ∅, 3, 1, 2, 1⟩ : PoolState).active_tasks.card ≤ 2 ∧
    (⟨2, 2, ∅, 3, 1, 2, 1⟩ : PoolState).sem_value +
      (⟨2, 2, ∅, 3, 1, 2, 1⟩ : PoolState).active_tasks.card = 2 ∧
    (finishTids [PoolEvent.submit, PoolEvent.submit,
      PoolEvent.finish 0 Outcome.success, PoolEvent.submit,
      PoolEvent.finish 1 Outcome.timeout,
      PoolEvent.finish 2 Outcome.error]).Nodup ∧
    (⟨2, 2, ∅, 3, 1, 2, 1⟩ : PoolState).active_tasks.card +
      countFinishes [PoolEvent.submit, PoolEvent.submit,
        PoolEvent.finish 0 Outcome.success, PoolEvent.submit,
        PoolEvent.finish 1 Outcome.timeout,
        PoolEvent.finish 2 Outcome.error] =
      countSubmits [PoolEvent.submit, PoolEvent.submit,
        PoolEvent.finish 0 Outcome.success, PoolEvent.submit,
        PoolEvent.finish 1 Outcome.timeout,
        PoolEvent.finish 2 Outcome.error] ∧
    (countFinishes [PoolEvent.submit, PoolEvent.submit,
        PoolEvent.finish 0 Outcome.success, PoolEvent.submit,
        PoolEvent.finish 1 Outcome.timeout,
        PoolEvent.finish 2 Outcome.error] =
      countSubmits [PoolEvent.submit, PoolEvent.submit,
        PoolEvent.finish 0 Outcome.success, PoolEvent.submit,
        PoolEvent.finish 1 Outcome.timeout,
        PoolEvent.finish 2 Outcome.error] →
      (⟨2, 2, ∅, 3, 1, 2, 1⟩ : PoolState).active_tasks.card = 0) :=
  c3_slot_conservation 2
    [PoolEvent.submit, PoolEvent.submit,
      PoolEvent.finish 0 Outcome.success, PoolEvent.submit,
      PoolEvent.finish 1 Outcome.timeout,
      PoolEvent.finish 2 Outcome.error]
    ⟨2, 2, ∅, 3, 1, 2, 1⟩ (by decide)

/-- C10: a timed-out task increments both the timed-out counter and the
failed counter and leaves the completed counter alone, so in every
reachable pool state the failed count is at least the timeout count. -/
theorem c10_timeout_counted_as_failed :
    (∀ (c : Nat) (evs : List PoolEvent) (s : PoolState),
      runPool (initPool c) evs = some s →
        s.timeout_count ≤ s.failed_count) ∧
    (∀ (s s' : PoolState) (tid : Nat),
      poolStep s (PoolEvent.finish tid Outcome.timeout) = some s' →
        s'.failed_count = s.failed_count + 1 ∧
        s'.timeout_count = s.timeout_count + 1 ∧
        s'.completed_count = s.completed_count) := by
  constructor
  · intro c evs s h
    exact runPool_timeout_le evs (initPool c) s h (by simp [initPool])
  · intro s s' tid h
    simp only [poolStep] at h
    by_cases hm : tid ∈ s.active_tasks
    · rw [if_pos hm] at h
      rw [← Option.some.inj h]
      exact ⟨rfl, rfl, rfl⟩
    · rw [if_neg hm] at h
      exact absurd h (by simp)

/-- C10 witness: one submission that times out yields timeout and failed
counters both 1 and completed 0. -/
theorem c10_timeout_counted_as_failed_witness :
    ((⟨1, 1, ∅, 1, 0, 1, 1⟩ : PoolState).timeout_count ≤
      (⟨1, 1, ∅, 1, 0, 1, 1⟩ : PoolState).failed_count) ∧
    ((⟨1, 1, ∅, 1, 0, 1, 1⟩ : PoolState).failed_count =
        (⟨1, 0, {0}, 1, 0, 0, 0⟩ : PoolState).failed_count + 1 ∧
      (⟨1, 1, ∅, 1, 0, 1, 1⟩ : PoolState).timeout_count =
        (⟨1, 0, {0}, 1, 0, 0, 0⟩ : PoolState).timeout_count + 1 ∧
      (⟨1, 1, ∅, 1, 0, 1, 1⟩ : PoolState).completed_count =
        (⟨1, 0, {0}, 1, 0, 0, 0⟩ : PoolState).completed_count) :=
  ⟨c10_timeout_counted_as_failed.1 1
      [PoolEvent.submit, PoolEvent.finish 0 Outcome.timeout]
      ⟨1, 1, ∅, 1, 0, 1, 1⟩ (by decide),
    c10_timeout_counted_as_failed.2 ⟨1, 0, {0}, 1, 0, 0, 0⟩
      ⟨1, 1, ∅, 1, 0, 1, 1⟩ 0 (by decide)⟩
